import Mathlib

/-!
Shallow embedding of `src/index.js` (jfkfilescraper): the download /
checksum / verification pipeline.

Modelling conventions:
* File contents are byte lists (`Content`).  The MD5 digest provided by the
  external `crypto` library is an arbitrary function `md5 : Content → Digest`
  passed to every operation that hashes.
* The filesystem below `DOWNLOAD_DIR` is a finite map from
  `(batchNumber, fileName)` to contents, plus the list of existing
  `Batch_n` directories in `readdirSync` order (the `Batch_` filter of
  `verifyChecksums` keeps exactly those, so only they are modelled).
* `checksums.json` and `index.json` are `Option`-valued durable fields
  (`none` = the file does not exist).
* The network and the other per-resource failure points of `downloadPdf`
  are an environment `net : String → FetchResult` choosing, per url, the
  outcome of the fetch / write / hash sequence.
* The concurrent group of five promises awaited by `Promise.all` is
  serialized in list order; the trace field `events` records the I/O the
  code performs (fetches, hash stream reads, directory scans, durable
  writes), so that "performs no fetch / no hashing" is statable.
-/

set_option autoImplicit false

namespace JfkScraper

/-- Byte content of a file. -/
abbrev Content := List Nat

/-- A hex digest as produced by the external hashing library. -/
abbrev Digest := String

/-- Accumulator pass for `basename`: keeps the characters seen since the
last `/`. -/
def basenameAux : List Char → List Char → List Char
  | [], acc => acc
  | ch :: rest, acc =>
      if ch = '/' then basenameAux rest [] else basenameAux rest (acc ++ [ch])

/-- `path.basename(url)`: the final `/`-separated segment (the characters
after the last slash). -/
def basename (url : String) : String :=
  String.mk (basenameAux url.data [])

/-- `getBatchFolder` (src/index.js:75-81): `Math.floor(idx / 500) + 1`.
The `fs.ensureDirSync` side effect is modelled in `downloadPdf` via
`ensureDir`. -/
def batchNumber (idx : Nat) : Nat :=
  idx / 500 + 1

/-- Modelled from the spec (§4.1 BatchAssigner), for comparison with
`batchNumber`: "partitionNumber = floor((sequenceIndex - 1) / 500) + 1". -/
def specAssign (i : Nat) : Nat :=
  (i - 1) / 500 + 1

/-- Association-list lookup with decidable keys (JS object / path lookup). -/
def getKey {κ ν : Type} [DecidableEq κ] (k : κ) : List (κ × ν) → Option ν
  | [] => none
  | (k2, v) :: rest => if k2 = k then some v else getKey k rest

/-- JS object assignment `m[k] = v` (and file overwrite on disk): replace the
binding in place if the key is present, otherwise append it. -/
def setKey {κ ν : Type} [DecidableEq κ] (m : List (κ × ν)) (k : κ) (v : ν) :
    List (κ × ν) :=
  match m with
  | [] => [(k, v)]
  | (k2, v2) :: rest => if k2 = k then (k, v) :: rest else (k2, v2) :: setKey rest k v

/-- `fs.ensureDirSync` for `Batch_b`: idempotent create. -/
def ensureDir (dirs : List Nat) (b : Nat) : List Nat :=
  if b ∈ dirs then dirs else dirs ++ [b]

/-- One record of `indexData` / `index.json`
(`{ fileName, url, size, checksum }`, src/index.js:133). -/
structure IndexEntry where
  fileName : String
  url : String
  size : Nat
  checksum : Digest
deriving DecidableEq, Repr

/-- I/O events the pipeline performs, recorded oldest first. -/
inductive Event where
  /-- `axios({ url, method: GET, responseType: stream })` for a document. -/
  | fetch (url : String)
  /-- `generateChecksum` streaming the file in `Batch_b` named `name`. -/
  | hashFile (b : Nat) (name : String)
  /-- `fs.readdirSync(DOWNLOAD_DIR)` during verification. -/
  | scanDir
  /-- `fs.writeJsonSync(CHECKSUM_FILE, checksums)`. -/
  | writeChecksumFile
  /-- `fs.writeJsonSync(INDEX_FILE, indexData)`. -/
  | writeIndex
deriving DecidableEq, Repr

/-- Durable and in-memory state of the pipeline. -/
structure St where
  /-- Files on disk: `((batchNumber, fileName), bytes)`. -/
  disk : List ((Nat × String) × Content)
  /-- Existing `Batch_n` directories, in `readdirSync` order. -/
  dirs : List Nat
  /-- Durable `checksums.json` (`none` = absent). -/
  checksumFile : Option (List (String × Digest))
  /-- Durable `index.json` (`none` = absent). -/
  indexFile : Option (List IndexEntry)
  /-- In-memory `checksums` object of the current run. -/
  checksums : List (String × Digest)
  /-- In-memory `indexData` array of the current run. -/
  indexData : List IndexEntry
  /-- Trace of I/O events performed so far. -/
  events : List Event
deriving DecidableEq, Repr

/-- Outcome, chosen by the environment, of the fetch / write / hash sequence
of `downloadPdf` for one url (the failure points of src/index.js:111-139). -/
inductive FetchResult where
  /-- Fetch, write and checksum generation all succeed with these bytes. -/
  | ok (content : Content)
  /-- `axios` rejects before `fs.createWriteStream` runs: no file appears. -/
  | errBeforeWrite
  /-- The response or writer stream errors after the write stream exists:
  the bytes written so far remain on disk at the final path. -/
  | errDuringWrite (written : Content)
  /-- The write completes but `generateChecksum` rejects: the full file
  remains on disk, yet no checksum entry is recorded. -/
  | errHash (content : Content)
deriving DecidableEq, Repr

/-- `downloadPdf` (src/index.js:99-140): skip when the file exists, else
fetch, write, hash, record the checksum entry and index record, and persist
the whole checksum map; any failure is caught and leaves the records
untouched. -/
def downloadPdf (md5 : Content → Digest) (net : String → FetchResult)
    (url : String) (idx : Nat) (st : St) : St :=
  let fileName := basename url
  let b := batchNumber idx
  let st1 := { st with dirs := ensureDir st.dirs b }
  if (getKey (b, fileName) st1.disk).isSome then
    st1
  else
    match net url with
    | .errBeforeWrite =>
        { st1 with events := st1.events ++ [.fetch url] }
    | .errDuringWrite w =>
        { st1 with
            disk := setKey st1.disk (b, fileName) w,
            events := st1.events ++ [.fetch url] }
    | .errHash c =>
        { st1 with
            disk := setKey st1.disk (b, fileName) c,
            events := st1.events ++ [.fetch url, .hashFile b fileName] }
    | .ok c =>
        let digest := md5 c
        let cks := setKey st1.checksums fileName digest
        { st1 with
            disk := setKey st1.disk (b, fileName) c,
            checksums := cks,
            indexData := st1.indexData ++ [⟨fileName, url, c.length, digest⟩],
            checksumFile := some cks,
            events := st1.events ++
              [.fetch url, .hashFile b fileName, .writeChecksumFile] }

/-- Serialized processing of a list of urls: the element at 0-based offset
`j` is handled by `downloadPdf` with 1-based sequence index `base + j + 1`
(the `i + idx + 1` of src/index.js:157).  One `Promise.all` group is this
applied to its five members. -/
def runGroup (md5 : Content → Digest) (net : String → FetchResult) :
    Nat → List String → St → St
  | _, [], st => st
  | base, url :: rest, st =>
      runGroup md5 net (base + 1) rest (downloadPdf md5 net url (base + 1) st)

/-- The chunked loop of `downloadAllPdfs` (src/index.js:154-159): slices of
`CHUNK_SIZE = 5`, each group awaited before the next starts. -/
def runGroups (md5 : Content → Digest) (net : String → FetchResult) :
    Nat → List String → St → St
  | _, [], st => st
  | i, a :: b :: c :: d :: e :: rest, st =>
      runGroups md5 net (i + 5) rest (runGroup md5 net i [a, b, c, d, e] st)
  | i, l, st => runGroup md5 net i l st

/-- The group decomposition that loop performs: consecutive slices of 5. -/
def chunks5 {α : Type} : List α → List (List α)
  | [] => []
  | a :: b :: c :: d :: e :: rest => [a, b, c, d, e] :: chunks5 rest
  | l => [l]

/-- `downloadAllPdfs` (src/index.js:143-165).  The discovered links are a
parameter (`getPdfLinks` returns `[]` when discovery fails); the run loads
the durable checksum map (empty when absent), starts a fresh `indexData`,
processes the groups, and finally writes `index.json`. -/
def downloadAllPdfs (md5 : Content → Digest) (net : String → FetchResult)
    (pdfLinks : List String) (st : St) : St :=
  let cks := match st.checksumFile with
    | some m => m
    | none => []
  let st1 := { st with checksums := cks, indexData := [] }
  let st2 := runGroups md5 net 0 pdfLinks st1
  { st2 with
      indexFile := some st2.indexData,
      events := st2.events ++ [.writeIndex] }

/-- Search the batch directories in order for a file named `fileName`,
stopping at the first hit and returning its batch and bytes
(src/index.js:181-192). -/
def findInBatches (disk : List ((Nat × String) × Content)) :
    List Nat → String → Option (Nat × Content)
  | [], _ => none
  | b :: rest, fileName =>
      match getKey (b, fileName) disk with
      | some c => some (b, c)
      | none => findInBatches disk rest fileName

/-- Per-entry verdict of `verifyChecksums`. -/
inductive FileStatus where
  | ok
  | corrupted
  | missing
deriving DecidableEq, Repr

/-- The verdict `verifyChecksums` reaches for one checksum entry against
state `st`: missing when no batch directory holds the file, otherwise the
recomputed digest of the first hit decides ok vs corrupted. -/
def entryStatus (md5 : Content → Digest) (st : St)
    (fileName : String) (originalHash : Digest) : FileStatus :=
  match findInBatches st.disk st.dirs fileName with
  | none => .missing
  | some (_, c) => if md5 c = originalHash then .ok else .corrupted

/-- The scan / hash events one verification step performs. -/
def entryEvents (md5 : Content → Digest) (st : St)
    (fileName : String) (originalHash : Digest) : List Event :=
  match findInBatches st.disk st.dirs fileName with
  | none => [.scanDir]
  | some (b, c) =>
      let _ := md5 c
      let _ := originalHash
      [.scanDir, .hashFile b fileName]

/-- The loop body of `verifyChecksums` (src/index.js:179-208) over the entry
list: per-entry statuses in order, the `corruptedFiles` pushes in order, and
the scan / hash events in order. -/
def verifyEntries (md5 : Content → Digest) (st : St) :
    List (String × Digest) →
      List (String × FileStatus) × List String × List Event
  | [] => ([], [], [])
  | (fileName, originalHash) :: rest =>
      let status := entryStatus md5 st fileName originalHash
      let evs := entryEvents md5 st fileName originalHash
      let tail := verifyEntries md5 st rest
      ((fileName, status) :: tail.1,
       (if status = FileStatus.ok then tail.2.1 else fileName :: tail.2.1),
       evs ++ tail.2.2)

/-- Result of `verifyChecksums`. -/
inductive VerifyResult where
  /-- `checksums.json` absent: "No checksums found. Run a download first." -/
  | noChecksums
  /-- Per-entry report (in `Object.entries` order) and the accumulated
  `corruptedFiles` list (missing and corrupted names, in report order). -/
  | report (statuses : List (String × FileStatus)) (corruptedFiles : List String)
deriving DecidableEq, Repr

/-- `verifyChecksums` (src/index.js:168-217): aborts when the durable
checksum file is absent, otherwise checks every entry; also returns the
trace of scan / hash events it performed. -/
def verifyChecksums (md5 : Content → Digest) (st : St) :
    VerifyResult × List Event :=
  match st.checksumFile with
  | none => (.noChecksums, [])
  | some entries =>
      let r := verifyEntries md5 st entries
      (.report r.1 r.2.1, r.2.2)

/-- The first steps of `downloadAllPdfs` (src/index.js:145-152): durable
checksum map loaded into memory (empty when `checksums.json` is absent) and
a fresh `indexData`. -/
def loadRun (st : St) : St :=
  { st with
      checksums := match st.checksumFile with
        | some m => m
        | none => [],
      indexData := [] }

/-- The last step of `downloadAllPdfs` (src/index.js:162): write the run's
`indexData` to `index.json`, overwriting whatever was there. -/
def finishRun (st : St) : St :=
  { st with
      indexFile := some st.indexData,
      events := st.events ++ [.writeIndex] }

/-! ### Concrete sample environments and states (used by witnesses) -/

/-- A concrete stand-in digest function. -/
def md5c : Content → Digest :=
  fun c => toString (c.foldl (fun a x => a * 31 + x) 7)

/-- Environment in which every fetch succeeds with bytes `[1, 2, 3]`. -/
def netOk : String → FetchResult :=
  fun _ => .ok [1, 2, 3]

/-- Environment in which the fetch of `b.pdf` fails before the write stream
exists and every other fetch succeeds with bytes `[7]`. -/
def netMixed : String → FetchResult :=
  fun u => if u = "https://x/b.pdf" then .errBeforeWrite else .ok [7]

/-- Environment in which every write stream errors after one byte. -/
def netMid : String → FetchResult :=
  fun _ => .errDuringWrite [9]

/-- The pristine state: empty disk, no durable files, empty trace. -/
def st0 : St :=
  ⟨[], [], none, none, [], [], []⟩

/-- A state left by a prior run: `a.pdf` stored in `Batch_1` with a durable
checksum entry and a durable one-record manifest. -/
def stPrior : St :=
  { st0 with
      disk := [((1, "a.pdf"), [1, 2, 3])],
      dirs := [1],
      checksumFile := some [("a.pdf", md5c [1, 2, 3])],
      indexFile := some [⟨"a.pdf", "https://x/a.pdf", 3, md5c [1, 2, 3]⟩] }

/-- A state holding `a.pdf` on disk in `Batch_1` with no checksum entry
(e.g. left behind by a run whose hashing step failed). -/
def stOrphan : St :=
  { st0 with
      disk := [((1, "a.pdf"), [1, 2, 3])],
      dirs := [1],
      checksumFile := some [] }

/-- `stPrior` with the stored bytes of `a.pdf` silently replaced. -/
def stCorrupt : St :=
  { stPrior with disk := [((1, "a.pdf"), [9, 9])] }

/-! ### Basic lemmas about the map operations -/

theorem getKey_setKey_self {κ ν : Type} [DecidableEq κ] (m : List (κ × ν)) (k : κ) (v : ν) :
    getKey k (setKey m k v) = some v := by
  induction m with
  | nil => simp [setKey, getKey]
  | cons hd tl ih =>
      obtain ⟨k2, v2⟩ := hd
      by_cases hk : k2 = k
      · subst hk; simp [setKey, getKey]
      · simp [setKey, getKey, hk, ih]

theorem getKey_setKey_ne {κ ν : Type} [DecidableEq κ] (m : List (κ × ν)) (k k2 : κ) (v : ν)
    (h : k2 ≠ k) : getKey k2 (setKey m k v) = getKey k2 m := by
  induction m with
  | nil => simp [setKey, getKey, h.symm]
  | cons hd tl ih =>
      obtain ⟨k3, v3⟩ := hd
      by_cases hk : k3 = k
      · subst hk
        simp [setKey, getKey, h.symm]
      · by_cases hk2 : k3 = k2 <;> simp [setKey, getKey, hk, hk2, h, ih]

theorem getKey_setKey_isSome {κ ν : Type} [DecidableEq κ] (m : List (κ × ν)) (k k2 : κ)
    (v : ν) (h : (getKey k2 m).isSome) : (getKey k2 (setKey m k v)).isSome := by
  by_cases hk : k2 = k
  · subst hk; simp [getKey_setKey_self]
  · rwa [getKey_setKey_ne m k k2 v hk]

theorem getKey_setKey_isSome_inv {κ ν : Type} [DecidableEq κ] (m : List (κ × ν)) (k k2 : κ)
    (v : ν) (h : (getKey k2 (setKey m k v)).isSome) :
    k2 = k ∨ (getKey k2 m).isSome := by
  by_cases hk : k2 = k
  · exact Or.inl hk
  · exact Or.inr (by rwa [getKey_setKey_ne m k k2 v hk] at h)

/-! ### Field-level lemmas about `downloadPdf` -/

theorem downloadPdf_dirs (md5 : Content → Digest) (net : String → FetchResult)
    (url : String) (idx : Nat) (st : St) :
    (downloadPdf md5 net url idx st).dirs = ensureDir st.dirs (batchNumber idx) := by
  cases hnet : net url <;>
    by_cases hex : (getKey (batchNumber idx, basename url) st.disk).isSome = true <;>
      simp [downloadPdf, hex, hnet]

theorem downloadPdf_indexFile (md5 : Content → Digest) (net : String → FetchResult)
    (url : String) (idx : Nat) (st : St) :
    (downloadPdf md5 net url idx st).indexFile = st.indexFile := by
  cases hnet : net url <;>
    by_cases hex : (getKey (batchNumber idx, basename url) st.disk).isSome = true <;>
      simp [downloadPdf, hex, hnet]

/-- Branch equation: the file already exists, so `downloadPdf` only ensures
the batch directory and changes nothing else (src/index.js:104-107). -/
theorem downloadPdf_skip (md5 : Content → Digest) (net : String → FetchResult)
    (url : String) (idx : Nat) (st : St)
    (hex : (getKey (batchNumber idx, basename url) st.disk).isSome = true) :
    downloadPdf md5 net url idx st =
      { st with dirs := ensureDir st.dirs (batchNumber idx) } := by
  simp [downloadPdf, hex]

/-- Branch equation: successful fetch, write and hash. -/
theorem downloadPdf_ok (md5 : Content → Digest) (net : String → FetchResult)
    (url : String) (idx : Nat) (st : St) (c : Content)
    (hex : (getKey (batchNumber idx, basename url) st.disk).isSome = false)
    (hnet : net url = .ok c) :
    downloadPdf md5 net url idx st =
      { st with
          dirs := ensureDir st.dirs (batchNumber idx),
          disk := setKey st.disk (batchNumber idx, basename url) c,
          checksums := setKey st.checksums (basename url) (md5 c),
          indexData := st.indexData ++ [⟨basename url, url, c.length, md5 c⟩],
          checksumFile := some (setKey st.checksums (basename url) (md5 c)),
          events := st.events ++
            [.fetch url, .hashFile (batchNumber idx) (basename url),
             .writeChecksumFile] } := by
  simp [downloadPdf, hex, hnet]

/-- Branch equation: `axios` rejects before the write stream exists. -/
theorem downloadPdf_errBeforeWrite (md5 : Content → Digest)
    (net : String → FetchResult) (url : String) (idx : Nat) (st : St)
    (hex : (getKey (batchNumber idx, basename url) st.disk).isSome = false)
    (hnet : net url = .errBeforeWrite) :
    downloadPdf md5 net url idx st =
      { st with
          dirs := ensureDir st.dirs (batchNumber idx),
          events := st.events ++ [.fetch url] } := by
  simp [downloadPdf, hex, hnet]

/-- Branch equation: the stream errors after the write stream was created;
the partially written bytes remain at the final path. -/
theorem downloadPdf_errDuringWrite (md5 : Content → Digest)
    (net : String → FetchResult) (url : String) (idx : Nat) (st : St) (w : Content)
    (hex : (getKey (batchNumber idx, basename url) st.disk).isSome = false)
    (hnet : net url = .errDuringWrite w) :
    downloadPdf md5 net url idx st =
      { st with
          dirs := ensureDir st.dirs (batchNumber idx),
          disk := setKey st.disk (batchNumber idx, basename url) w,
          events := st.events ++ [.fetch url] } := by
  simp [downloadPdf, hex, hnet]

/-- Branch equation: the write completes but hashing fails; the file stays,
no records are produced. -/
theorem downloadPdf_errHash (md5 : Content → Digest)
    (net : String → FetchResult) (url : String) (idx : Nat) (st : St) (c : Content)
    (hex : (getKey (batchNumber idx, basename url) st.disk).isSome = false)
    (hnet : net url = .errHash c) :
    downloadPdf md5 net url idx st =
      { st with
          dirs := ensureDir st.dirs (batchNumber idx),
          disk := setKey st.disk (batchNumber idx, basename url) c,
          events := st.events ++
            [.fetch url, .hashFile (batchNumber idx) (basename url)] } := by
  simp [downloadPdf, hex, hnet]

/-- `downloadPdf` never deletes a checksum entry. -/
theorem downloadPdf_checksums_mono (md5 : Content → Digest)
    (net : String → FetchResult) (url : String) (idx : Nat) (st : St) (k : String)
    (h : (getKey k st.checksums).isSome) :
    (getKey k (downloadPdf md5 net url idx st).checksums).isSome := by
  cases hnet : net url <;>
    by_cases hex : (getKey (batchNumber idx, basename url) st.disk).isSome = true <;>
      simp [downloadPdf, hex, hnet, h, getKey_setKey_isSome]

/-- `downloadPdf` touches no checksum key other than `basename url`. -/
theorem downloadPdf_checksums_ne (md5 : Content → Digest)
    (net : String → FetchResult) (url : String) (idx : Nat) (st : St) (k : String)
    (h : k ≠ basename url) :
    getKey k (downloadPdf md5 net url idx st).checksums = getKey k st.checksums := by
  cases hnet : net url <;>
    by_cases hex : (getKey (batchNumber idx, basename url) st.disk).isSome = true <;>
      simp [downloadPdf, hex, hnet, getKey_setKey_ne _ _ _ _ h]

/-- `downloadPdf` never deletes a file from disk. -/
theorem downloadPdf_disk_mono (md5 : Content → Digest)
    (net : String → FetchResult) (url : String) (idx : Nat) (st : St) (p : Nat × String)
    (h : (getKey p st.disk).isSome) :
    (getKey p (downloadPdf md5 net url idx st).disk).isSome := by
  cases hnet : net url <;>
    by_cases hex : (getKey (batchNumber idx, basename url) st.disk).isSome = true <;>
      simp [downloadPdf, hex, hnet, h, getKey_setKey_isSome]

/-- `downloadPdf` touches no disk slot other than its own
`(batchNumber idx, basename url)`. -/
theorem downloadPdf_disk_ne (md5 : Content → Digest)
    (net : String → FetchResult) (url : String) (idx : Nat) (st : St) (p : Nat × String)
    (h : p ≠ (batchNumber idx, basename url)) :
    getKey p (downloadPdf md5 net url idx st).disk = getKey p st.disk := by
  cases hnet : net url <;>
    by_cases hex : (getKey (batchNumber idx, basename url) st.disk).isSome = true <;>
      simp [downloadPdf, hex, hnet, getKey_setKey_ne _ _ _ _ h]

/-- The durable checksum file after `downloadPdf` is either untouched or a
snapshot of the full in-memory map at that point. -/
theorem downloadPdf_checksumFile_or (md5 : Content → Digest)
    (net : String → FetchResult) (url : String) (idx : Nat) (st : St) :
    (downloadPdf md5 net url idx st).checksumFile = st.checksumFile ∨
      (downloadPdf md5 net url idx st).checksumFile =
        some (downloadPdf md5 net url idx st).checksums := by
  cases hnet : net url <;>
    by_cases hex : (getKey (batchNumber idx, basename url) st.disk).isSome = true <;>
      simp [downloadPdf, hex, hnet]

/-- `downloadPdf` never writes `index.json`. -/
theorem downloadPdf_writeIndex_count (md5 : Content → Digest)
    (net : String → FetchResult) (url : String) (idx : Nat) (st : St) :
    List.count Event.writeIndex (downloadPdf md5 net url idx st).events =
      List.count Event.writeIndex st.events := by
  cases hnet : net url <;>
    by_cases hex : (getKey (batchNumber idx, basename url) st.disk).isSome = true <;>
      simp [downloadPdf, hex, hnet, List.count_append, List.count_cons]

/-- `downloadPdf` never deletes the durable checksum file. -/
theorem downloadPdf_checksumFile_isSome (md5 : Content → Digest)
    (net : String → FetchResult) (url : String) (idx : Nat) (st : St)
    (h : st.checksumFile.isSome) :
    (downloadPdf md5 net url idx st).checksumFile.isSome := by
  rcases downloadPdf_checksumFile_or md5 net url idx st with hor | hor <;> simp [hor, h]

/-! ### Lemmas about sequential group processing -/

theorem runGroup_append (md5 : Content → Digest) (net : String → FetchResult)
    (l1 l2 : List String) (base : Nat) (st : St) :
    runGroup md5 net base (l1 ++ l2) st =
      runGroup md5 net (base + l1.length) l2 (runGroup md5 net base l1 st) := by
  induction l1 generalizing base st with
  | nil => simp [runGroup]
  | cons hd tl ih =>
      simp only [List.cons_append, runGroup, List.length_cons, List.append_eq]
      rw [ih]
      have hb : base + 1 + tl.length = base + (tl.length + 1) := by omega
      rw [hb]

/-- The chunked loop of `downloadAllPdfs` is the in-order sequential
processing of the whole url list: groups run one after the other, each
awaited before the next starts. -/
theorem runGroups_eq_runGroup (md5 : Content → Digest) (net : String → FetchResult)
    (i : Nat) (urls : List String) (st : St) :
    runGroups md5 net i urls st = runGroup md5 net i urls st := by
  induction i, urls, st using runGroups.induct md5 net with
  | case1 i st => simp [runGroups, runGroup]
  | case2 i a b c d e rest st ih =>
      show runGroups md5 net (i + 5) rest (runGroup md5 net i [a, b, c, d, e] st) = _
      rw [ih]
      rw [show (a :: b :: c :: d :: e :: rest) = [a, b, c, d, e] ++ rest from rfl,
        runGroup_append]
      simp
  | case3 i l st h1 h2 => exact runGroups.eq_3 md5 net i l st h1 h2

theorem runGroup_indexFile (md5 : Content → Digest) (net : String → FetchResult)
    (base : Nat) (urls : List String) (st : St) :
    (runGroup md5 net base urls st).indexFile = st.indexFile := by
  induction urls generalizing base st with
  | nil => simp [runGroup]
  | cons hd tl ih => simp [runGroup, ih, downloadPdf_indexFile]

theorem runGroup_checksums_mono (md5 : Content → Digest) (net : String → FetchResult)
    (base : Nat) (urls : List String) (st : St) (k : String)
    (h : (getKey k st.checksums).isSome) :
    (getKey k (runGroup md5 net base urls st).checksums).isSome := by
  induction urls generalizing base st with
  | nil => simpa [runGroup]
  | cons hd tl ih =>
      simp only [runGroup]
      exact ih _ _ (downloadPdf_checksums_mono _ _ _ _ _ _ h)

theorem runGroup_disk_mono (md5 : Content → Digest) (net : String → FetchResult)
    (base : Nat) (urls : List String) (st : St) (p : Nat × String)
    (h : (getKey p st.disk).isSome) :
    (getKey p (runGroup md5 net base urls st).disk).isSome := by
  induction urls generalizing base st with
  | nil => simpa [runGroup]
  | cons hd tl ih =>
      simp only [runGroup]
      exact ih _ _ (downloadPdf_disk_mono _ _ _ _ _ _ h)

/-- A checksum key present in memory, and present in every durable snapshot
so far, stays so through a whole group run; the durable file also never
disappears. -/
theorem runGroup_keep_inv (md5 : Content → Digest) (net : String → FetchResult)
    (base : Nat) (urls : List String) (st : St) (k : String)
    (h1 : (getKey k st.checksums).isSome)
    (h2 : ∀ m, st.checksumFile = some m → (getKey k m).isSome)
    (h3 : st.checksumFile.isSome) :
    (getKey k (runGroup md5 net base urls st).checksums).isSome
    ∧ (∀ m, (runGroup md5 net base urls st).checksumFile = some m →
        (getKey k m).isSome)
    ∧ (runGroup md5 net base urls st).checksumFile.isSome := by
  induction urls generalizing base st with
  | nil => exact ⟨by simpa [runGroup], by simpa [runGroup] using h2, by simpa [runGroup]⟩
  | cons hd tl ih =>
      simp only [runGroup]
      apply ih
      · exact downloadPdf_checksums_mono _ _ _ _ _ _ h1
      · intro m hm
        rcases downloadPdf_checksumFile_or md5 net hd (base + 1) st with hor | hor
        · exact h2 m (by rw [hor] at hm; exact hm)
        · rw [hor] at hm
          obtain rfl : (downloadPdf md5 net hd (base + 1) st).checksums = m :=
            Option.some_injective _ hm
          exact downloadPdf_checksums_mono _ _ _ _ _ _ h1
      · exact downloadPdf_checksumFile_isSome _ _ _ _ _ h3

/-- Any key of the in-memory map after a group run was already present
before it or is the base name of one of the processed urls. -/
theorem runGroup_checksums_keys (md5 : Content → Digest) (net : String → FetchResult)
    (base : Nat) (urls : List String) (st : St) (k : String)
    (h : (getKey k (runGroup md5 net base urls st).checksums).isSome) :
    (getKey k st.checksums).isSome ∨ k ∈ urls.map basename := by
  induction urls generalizing base st with
  | nil => simp only [runGroup] at h; exact Or.inl h
  | cons hd tl ih =>
      simp only [runGroup] at h
      rcases ih _ _ h with h2 | h2
      · by_cases hk : k = basename hd
        · right; simp [hk]
        · left; rwa [downloadPdf_checksums_ne _ _ _ _ _ _ hk] at h2
      · right; simp [h2]

/-- `downloadAllPdfs` is: load the durable map, process all groups in
order, then flush the manifest once. -/
theorem downloadAllPdfs_eq (md5 : Content → Digest) (net : String → FetchResult)
    (urls : List String) (st : St) :
    downloadAllPdfs md5 net urls st =
      finishRun (runGroup md5 net 0 urls (loadRun st)) := by
  rcases hcf : st.checksumFile with _ | m <;>
    simp [downloadAllPdfs, finishRun, loadRun, runGroups_eq_runGroup, hcf]

/-! ### Claim C1 -/

/-- C1 fails as stated: the code computes `Math.floor(idx / 500) + 1` on the
1-based sequence index, so at sequence position 500 it assigns partition 2,
while the claimed formula `floor((i - 1) / 500) + 1` assigns partition 1. -/
theorem c1_formula_counterexample :
    batchNumber 500 = 2 ∧ specAssign 500 = 1 := by decide

/-- C1 (amended): partition assignment is the pure function
`batchNumber i = floor(i / 500) + 1` of the resource's 1-based sequence
position `i` alone, so positions 1..499 land in partition 1, positions
500..999 in partition 2, and so on; regardless of the download's outcome,
`downloadPdf` touches no disk slot other than
`(batchNumber i, basename url)` and ensures exactly the directory
`Batch_(batchNumber i)`. -/
theorem c1_partition_assignment (md5 : Content → Digest) (net : String → FetchResult)
    (url : String) (i : Nat) (st : St) (h : 1 ≤ i) :
    batchNumber i = i / 500 + 1
    ∧ (i ≤ 499 → batchNumber i = 1)
    ∧ (500 ≤ i → i ≤ 999 → batchNumber i = 2)
    ∧ (∀ p, p ≠ (batchNumber i, basename url) →
        getKey p (downloadPdf md5 net url i st).disk = getKey p st.disk)
    ∧ (downloadPdf md5 net url i st).dirs = ensureDir st.dirs (batchNumber i) := by
  refine ⟨rfl, ?_, ?_, ?_, downloadPdf_dirs md5 net url i st⟩
  · intro hle; unfold batchNumber; omega
  · intro h5 h9; unfold batchNumber; omega
  · intro p hp; exact downloadPdf_disk_ne md5 net url i st p hp

/-- Witness for `c1_partition_assignment` at sequence position 500. -/
theorem c1_partition_assignment_witness :
    batchNumber 500 = 500 / 500 + 1
    ∧ (500 ≤ 499 → batchNumber 500 = 1)
    ∧ (500 ≤ 500 → 500 ≤ 999 → batchNumber 500 = 2)
    ∧ (∀ p, p ≠ (batchNumber 500, basename "https://x/a.pdf") →
        getKey p (downloadPdf md5c netOk "https://x/a.pdf" 500 st0).disk =
          getKey p st0.disk)
    ∧ (downloadPdf md5c netOk "https://x/a.pdf" 500 st0).dirs =
        ensureDir st0.dirs (batchNumber 500) :=
  c1_partition_assignment md5c netOk "https://x/a.pdf" 500 st0 (by decide)

/-! ### Claim C2 -/

/-- C2: the checksum store is cumulative and monotone.  (1) Every entry of
the durable map present when a run starts is still present in the durable
map when the run ends (the run loads the existing map, never removes an
entry, and persists the whole map).  (2) Immediately after each individual
successful download the durable file holds the entire in-memory map,
including the new entry.  (3) When the durable file is absent the run
starts from the empty map: any key present in memory afterwards is the base
name of one of this run's urls.  (4) No single download step removes a key
from the in-memory map. -/
theorem c2_checksum_store_cumulative (md5 : Content → Digest)
    (net : String → FetchResult) (urls : List String) (st : St) :
    (∀ m0 k, st.checksumFile = some m0 → (getKey k m0).isSome →
      ∃ m, (downloadAllPdfs md5 net urls st).checksumFile = some m
        ∧ (getKey k m).isSome)
    ∧ (∀ url idx c, (getKey (batchNumber idx, basename url) st.disk).isSome = false →
        net url = FetchResult.ok c →
        (downloadPdf md5 net url idx st).checksumFile =
            some (downloadPdf md5 net url idx st).checksums
          ∧ getKey (basename url) (downloadPdf md5 net url idx st).checksums =
            some (md5 c))
    ∧ (∀ k, st.checksumFile = none →
        (getKey k (downloadAllPdfs md5 net urls st).checksums).isSome →
        k ∈ urls.map basename)
    ∧ (∀ url idx k, (getKey k st.checksums).isSome →
        (getKey k (downloadPdf md5 net url idx st).checksums).isSome) := by
  refine ⟨?_, ?_, ?_, ?_⟩
  · intro m0 k hm0 hk
    rw [downloadAllPdfs_eq]
    have hload1 : (getKey k (loadRun st).checksums).isSome := by
      simp [loadRun, hm0, hk]
    have hload2 : ∀ m, (loadRun st).checksumFile = some m → (getKey k m).isSome := by
      intro m hm
      simp only [loadRun, hm0] at hm
      obtain rfl : m0 = m := Option.some_injective _ hm
      exact hk
    have hload3 : (loadRun st).checksumFile.isSome := by simp [loadRun, hm0]
    obtain ⟨h1, h2, h3⟩ :=
      runGroup_keep_inv md5 net 0 urls (loadRun st) k hload1 hload2 hload3
    rcases hsome : (runGroup md5 net 0 urls (loadRun st)).checksumFile with _ | m
    · rw [hsome] at h3; simp at h3
    · exact ⟨m, by simp [finishRun, hsome], h2 m hsome⟩
  · intro url idx c hex hnet
    rw [downloadPdf_ok md5 net url idx st c hex hnet]
    exact ⟨by simp, by simp [getKey_setKey_self]⟩
  · intro k hnone hk
    rw [downloadAllPdfs_eq] at hk
    have hk2 : (getKey k (runGroup md5 net 0 urls (loadRun st)).checksums).isSome := by
      simpa [finishRun] using hk
    rcases runGroup_checksums_keys md5 net 0 urls (loadRun st) k hk2 with h | h
    · simp [loadRun, hnone, getKey] at h
    · exact h
  · intro url idx k hk
    exact downloadPdf_checksums_mono md5 net url idx st k hk

/-- Witness for `c2_checksum_store_cumulative`: the prior entry for `a.pdf`
survives a later run that downloads `b.pdf`. -/
theorem c2_checksum_store_cumulative_witness :
    ∃ m, (downloadAllPdfs md5c netOk ["https://x/b.pdf"] stPrior).checksumFile = some m
      ∧ (getKey "a.pdf" m).isSome :=
  (c2_checksum_store_cumulative md5c netOk ["https://x/b.pdf"] stPrior).1
    [("a.pdf", md5c [1, 2, 3])] "a.pdf" rfl (by decide)

/-! ### Claim C6 -/

/-- C6 fails as stated: with a prior manifest on disk, a run that receives
the empty locator sequence (the discovery-failure case) still overwrites
`index.json` — durable state IS modified. -/
theorem c6_empty_run_counterexample :
    (downloadAllPdfs md5c netOk [] stPrior).indexFile ≠ stPrior.indexFile := by
  decide

/-- C6 (amended): when discovery fails the orchestrator receives the empty
locator sequence and attempts no download — no fetch, no hash, no directory
scan or create, no stored file, and the durable checksum store is untouched
— but it still flushes the manifest once, overwriting `index.json` with the
empty record list. -/
theorem c6_discovery_failure (md5 : Content → Digest) (net : String → FetchResult)
    (st : St) :
    (downloadAllPdfs md5 net [] st).disk = st.disk
    ∧ (downloadAllPdfs md5 net [] st).dirs = st.dirs
    ∧ (downloadAllPdfs md5 net [] st).checksumFile = st.checksumFile
    ∧ (downloadAllPdfs md5 net [] st).events = st.events ++ [Event.writeIndex]
    ∧ (downloadAllPdfs md5 net [] st).indexFile = some [] := by
  rw [downloadAllPdfs_eq]
  simp [finishRun, loadRun, runGroup]

/-! ### Claim C8 -/

/-- C8: when the durable checksum file does not exist, verification aborts
immediately with the "no checksums recorded" outcome and performs no I/O at
all — the event trace is empty, in particular no directory scan and no
hashing happen. -/
theorem c8_verify_no_store (md5 : Content → Digest) (st : St)
    (h : st.checksumFile = none) :
    verifyChecksums md5 st = (VerifyResult.noChecksums, []) := by
  simp [verifyChecksums, h]

/-- Witness for `c8_verify_no_store` on the pristine state. -/
theorem c8_verify_no_store_witness :
    verifyChecksums md5c st0 = (VerifyResult.noChecksums, []) :=
  c8_verify_no_store md5c st0 rfl

/-! ### Claim C9 -/

theorem chunks5_flatten {α : Type} (l : List α) : (chunks5 l).flatten = l := by
  induction l using chunks5.induct with
  | case1 => simp [chunks5]
  | case2 a b c d e rest ih => simp [chunks5, ih]
  | case3 l h1 h2 => rw [chunks5.eq_3 l h1 h2]; simp

theorem chunks5_mem {α : Type} (l g : List α) (hg : g ∈ chunks5 l) :
    g ≠ [] ∧ g.length ≤ 5 := by
  induction l using chunks5.induct with
  | case1 => simp [chunks5] at hg
  | case2 a b c d e rest ih =>
      simp only [chunks5, List.mem_cons] at hg
      rcases hg with h | h
      · subst h; exact ⟨by simp, by simp⟩
      · exact ih h
  | case3 l h1 h2 =>
      rw [chunks5.eq_3 l h1 h2] at hg
      simp only [List.mem_singleton] at hg
      subst hg
      refine ⟨fun hnil => h1 hnil, ?_⟩
      rcases g with _ | ⟨a, _ | ⟨b, _ | ⟨c, _ | ⟨d, _ | ⟨e, rest⟩⟩⟩⟩⟩
      · simp
      · simp
      · simp
      · simp
      · simp
      · exact (h2 a b c d e rest rfl).elim

theorem runGroups_foldl (md5 : Content → Digest) (net : String → FetchResult)
    (i : Nat) (urls : List String) (st : St) :
    runGroups md5 net i urls st =
      ((chunks5 urls).foldl
        (fun p g => (p.1 + 5, runGroup md5 net p.1 g p.2)) (i, st)).2 := by
  induction i, urls, st using runGroups.induct md5 net with
  | case1 i st => simp [runGroups, chunks5]
  | case2 i a b c d e rest st ih =>
      show runGroups md5 net (i + 5) rest (runGroup md5 net i [a, b, c, d, e] st) = _
      rw [ih]
      simp only [chunks5, List.foldl_cons]
  | case3 i l st h1 h2 =>
      rw [runGroups.eq_3 md5 net i l st h1 h2, chunks5.eq_3 l h1 h2]
      simp

/-- C9: the orchestrator cuts the locator sequence into consecutive groups
whose concatenation restores the original order, every group is nonempty of
size at most 5 (the in-flight bound), and the chunked loop is the left fold
of whole-group processing — the state fed to group N+1 is the state at
which every task of group N has completed — which in turn equals in-order
sequential processing of all resources with their 1-based sequence
indices. -/
theorem c9_group_barrier (md5 : Content → Digest) (net : String → FetchResult)
    (urls : List String) (st : St) :
    (chunks5 urls).flatten = urls
    ∧ (∀ g, g ∈ chunks5 urls → g ≠ [] ∧ g.length ≤ 5)
    ∧ runGroups md5 net 0 urls st =
        ((chunks5 urls).foldl
          (fun p g => (p.1 + 5, runGroup md5 net p.1 g p.2)) (0, st)).2
    ∧ runGroups md5 net 0 urls st = runGroup md5 net 0 urls st :=
  ⟨chunks5_flatten urls, fun g hg => chunks5_mem urls g hg,
   runGroups_foldl md5 net 0 urls st, runGroups_eq_runGroup md5 net 0 urls st⟩

/-- Witness for `c9_group_barrier` on a seven-element sequence: the groups
are `[u1..u5]` and `[u6, u7]`. -/
theorem c9_group_barrier_witness :
    (chunks5 ["u1", "u2", "u3", "u4", "u5", "u6", "u7"]).flatten =
      ["u1", "u2", "u3", "u4", "u5", "u6", "u7"]
    ∧ (["u1", "u2", "u3", "u4", "u5"] ≠ ([] : List String)
        ∧ (["u1", "u2", "u3", "u4", "u5"] : List String).length ≤ 5) :=
  ⟨(c9_group_barrier md5c netOk ["u1", "u2", "u3", "u4", "u5", "u6", "u7"] st0).1,
   (c9_group_barrier md5c netOk ["u1", "u2", "u3", "u4", "u5", "u6", "u7"] st0).2.1
     ["u1", "u2", "u3", "u4", "u5"] (by decide)⟩

/-! ### More step and run invariants -/

/-- `indexData` is append-only in every branch of `downloadPdf`. -/
theorem downloadPdf_indexData_mono (md5 : Content → Digest)
    (net : String → FetchResult) (url : String) (idx : Nat) (st : St)
    (rec : IndexEntry) (h : rec ∈ st.indexData) :
    rec ∈ (downloadPdf md5 net url idx st).indexData := by
  cases hnet : net url <;>
    by_cases hex : (getKey (batchNumber idx, basename url) st.disk).isSome = true <;>
      simp [downloadPdf, hex, hnet, h]

/-- `downloadPdf` never reads or writes `index.json`. -/
theorem downloadPdf_indexFile_ignored (md5 : Content → Digest)
    (net : String → FetchResult) (url : String) (idx : Nat) (st : St)
    (j : Option (List IndexEntry)) :
    downloadPdf md5 net url idx { st with indexFile := j } =
      { downloadPdf md5 net url idx st with indexFile := j } := by
  cases hnet : net url <;>
    by_cases hex : (getKey (batchNumber idx, basename url) st.disk).isSome = true <;>
      simp [downloadPdf, hex, hnet]

theorem ensureDir_mem_self (dirs : List Nat) (b : Nat) : b ∈ ensureDir dirs b := by
  by_cases h : b ∈ dirs <;> simp [ensureDir, h]

theorem ensureDir_subset (dirs : List Nat) (b b2 : Nat) (h : b2 ∈ ensureDir dirs b) :
    b2 ∈ dirs ∨ b2 = b := by
  by_cases hb : b ∈ dirs
  · simp [ensureDir, hb] at h; exact Or.inl h
  · simp [ensureDir, hb] at h
    rcases h with h | h
    · exact Or.inl h
    · exact Or.inr h

theorem runGroup_writeIndex_count (md5 : Content → Digest)
    (net : String → FetchResult) (base : Nat) (urls : List String) (st : St) :
    List.count Event.writeIndex (runGroup md5 net base urls st).events =
      List.count Event.writeIndex st.events := by
  induction urls generalizing base st with
  | nil => simp [runGroup]
  | cons hd tl ih =>
      simp only [runGroup]
      rw [ih, downloadPdf_writeIndex_count]

theorem runGroup_indexFile_ignored (md5 : Content → Digest)
    (net : String → FetchResult) (base : Nat) (urls : List String) (st : St)
    (j : Option (List IndexEntry)) :
    runGroup md5 net base urls { st with indexFile := j } =
      { runGroup md5 net base urls st with indexFile := j } := by
  induction urls generalizing base st with
  | nil => simp [runGroup]
  | cons hd tl ih =>
      simp only [runGroup]
      rw [downloadPdf_indexFile_ignored, ih]

/-- When every resource's file is already on disk at its assigned slot, the
whole group run only ensures directories: no fetch, no hash, no record, no
durable write, no disk change. -/
theorem runGroup_all_skip (md5 : Content → Digest) (net : String → FetchResult)
    (base : Nat) (urls : List String) (st : St)
    (hpos : ∀ p, p < urls.length →
      (getKey (batchNumber (base + p + 1), basename (urls.getD p "")) st.disk).isSome) :
    (runGroup md5 net base urls st).disk = st.disk
    ∧ (runGroup md5 net base urls st).checksums = st.checksums
    ∧ (runGroup md5 net base urls st).checksumFile = st.checksumFile
    ∧ (runGroup md5 net base urls st).indexData = st.indexData
    ∧ (runGroup md5 net base urls st).events = st.events := by
  induction urls generalizing base st with
  | nil => simp [runGroup]
  | cons hd tl ih =>
      simp only [runGroup]
      have hex : (getKey (batchNumber (base + 1), basename hd) st.disk).isSome = true := by
        have h0 := hpos 0 (by simp)
        simpa using h0
      rw [downloadPdf_skip md5 net hd (base + 1) st hex]
      have htl := ih (base + 1) { st with dirs := ensureDir st.dirs (batchNumber (base + 1)) }
        (by
          intro p hp
          have hq := hpos (p + 1) (by simpa using Nat.succ_lt_succ hp)
          have harith : base + (p + 1) + 1 = base + 1 + p + 1 := by omega
          rw [harith] at hq
          simpa using hq)
      simpa using htl

/-- An established checksum binding, its durable-snapshot property and a
manifest record survive the processing of urls none of which has base name
`n`. -/
theorem runGroup_keep_entry (md5 : Content → Digest) (net : String → FetchResult)
    (base : Nat) (urls : List String) (st : St) (n : String) (v : Digest)
    (rec : IndexEntry)
    (hn : ∀ url, url ∈ urls → basename url ≠ n)
    (h1 : getKey n st.checksums = some v)
    (h2 : ∀ m, st.checksumFile = some m → getKey n m = some v)
    (h3 : rec ∈ st.indexData)
    (h4 : st.checksumFile.isSome) :
    getKey n (runGroup md5 net base urls st).checksums = some v
    ∧ (∀ m, (runGroup md5 net base urls st).checksumFile = some m →
        getKey n m = some v)
    ∧ rec ∈ (runGroup md5 net base urls st).indexData
    ∧ (runGroup md5 net base urls st).checksumFile.isSome := by
  induction urls generalizing base st with
  | nil =>
      exact ⟨by simpa [runGroup], by simpa [runGroup] using h2,
        by simpa [runGroup], by simpa [runGroup]⟩
  | cons hd tl ih =>
      simp only [runGroup]
      have hne : n ≠ basename hd := fun hc => (hn hd (by simp)) hc.symm
      apply ih
      · intro url hu; exact hn url (by simp [hu])
      · rw [downloadPdf_checksums_ne md5 net hd (base + 1) st n hne]; exact h1
      · intro m hm
        rcases downloadPdf_checksumFile_or md5 net hd (base + 1) st with hor | hor
        · exact h2 m (by rw [hor] at hm; exact hm)
        · rw [hor] at hm
          obtain rfl := Option.some_injective _ hm
          rw [downloadPdf_checksums_ne md5 net hd (base + 1) st n hne]; exact h1
      · exact downloadPdf_indexData_mono _ _ _ _ _ _ h3
      · exact downloadPdf_checksumFile_isSome _ _ _ _ _ h4

/-- A name for which every url of the run either has a different base name
or never succeeds acquires no checksum entry, in memory or durably. -/
theorem runGroup_no_entry (md5 : Content → Digest) (net : String → FetchResult)
    (base : Nat) (urls : List String) (st : St) (n : String)
    (hfail : ∀ url, url ∈ urls → basename url = n → ∀ c, net url ≠ FetchResult.ok c)
    (hmem : getKey n st.checksums = none)
    (hfile : ∀ m, st.checksumFile = some m → getKey n m = none) :
    getKey n (runGroup md5 net base urls st).checksums = none
    ∧ ∀ m, (runGroup md5 net base urls st).checksumFile = some m →
        getKey n m = none := by
  induction urls generalizing base st with
  | nil => exact ⟨by simpa [runGroup], by simpa [runGroup] using hfile⟩
  | cons hd tl ih =>
      simp only [runGroup]
      have hstep1 : getKey n (downloadPdf md5 net hd (base + 1) st).checksums = none := by
        by_cases hbn : n = basename hd
        · -- the head could only add n via a successful download, excluded by hfail
          cases hnet : net hd with
          | ok c => exact absurd hnet (hfail hd (by simp) hbn.symm c)
          | errBeforeWrite =>
              by_cases hex : (getKey (batchNumber (base + 1), basename hd) st.disk).isSome = true
              · rw [downloadPdf_skip md5 net hd (base + 1) st hex]; exact hmem
              · rw [downloadPdf_errBeforeWrite md5 net hd (base + 1) st
                  (by simpa using hex) hnet]
                exact hmem
          | errDuringWrite w =>
              by_cases hex : (getKey (batchNumber (base + 1), basename hd) st.disk).isSome = true
              · rw [downloadPdf_skip md5 net hd (base + 1) st hex]; exact hmem
              · rw [downloadPdf_errDuringWrite md5 net hd (base + 1) st w
                  (by simpa using hex) hnet]
                exact hmem
          | errHash c =>
              by_cases hex : (getKey (batchNumber (base + 1), basename hd) st.disk).isSome = true
              · rw [downloadPdf_skip md5 net hd (base + 1) st hex]; exact hmem
              · rw [downloadPdf_errHash md5 net hd (base + 1) st c
                  (by simpa using hex) hnet]
                exact hmem
        · rw [downloadPdf_checksums_ne md5 net hd (base + 1) st n hbn]; exact hmem
      apply ih
      · intro url hu hbu; exact hfail url (by simp [hu]) hbu
      · exact hstep1
      · intro m hm
        rcases downloadPdf_checksumFile_or md5 net hd (base + 1) st with hor | hor
        · exact hfile m (by rw [hor] at hm; exact hm)
        · rw [hor] at hm
          obtain rfl := Option.some_injective _ hm
          exact hstep1

/-- A name whose file is already present at its assigned slot for every
position at which it occurs acquires no checksum entry during the run. -/
theorem runGroup_no_checksum (md5 : Content → Digest) (net : String → FetchResult)
    (base : Nat) (urls : List String) (st : St) (n : String)
    (hpos : ∀ p, p < urls.length → basename (urls.getD p "") = n →
      (getKey (batchNumber (base + p + 1), n) st.disk).isSome)
    (hmem : getKey n st.checksums = none)
    (hfile : ∀ m, st.checksumFile = some m → getKey n m = none) :
    getKey n (runGroup md5 net base urls st).checksums = none
    ∧ ∀ m, (runGroup md5 net base urls st).checksumFile = some m →
        getKey n m = none := by
  induction urls generalizing base st with
  | nil => exact ⟨by simpa [runGroup], by simpa [runGroup] using hfile⟩
  | cons hd tl ih =>
      simp only [runGroup]
      by_cases hbn : basename hd = n
      · -- the head's file exists, so the head is skipped
        have hex : (getKey (batchNumber (base + 1), basename hd) st.disk).isSome = true := by
          have h0 := hpos 0 (by simp) (by simpa using hbn)
          rw [hbn]
          simpa using h0
        rw [downloadPdf_skip md5 net hd (base + 1) st hex]
        apply ih
        · intro p hp hbp
          have hq := hpos (p + 1) (by simpa using Nat.succ_lt_succ hp) (by simpa using hbp)
          have harith : base + (p + 1) + 1 = base + 1 + p + 1 := by omega
          rw [harith] at hq
          simpa using hq
        · simpa using hmem
        · simpa using hfile
      · -- the head has a different name: the key n and the slots named n
        -- are untouched whatever the head's outcome
        have hstep1 : getKey n (downloadPdf md5 net hd (base + 1) st).checksums = none := by
          rw [downloadPdf_checksums_ne md5 net hd (base + 1) st n
            (fun hc => hbn hc.symm)]
          exact hmem
        apply ih
        · intro p hp hbp
          have hq := hpos (p + 1) (by simpa using Nat.succ_lt_succ hp) (by simpa using hbp)
          have harith : base + (p + 1) + 1 = base + 1 + p + 1 := by omega
          rw [harith] at hq
          have hkey : ((batchNumber (base + 1 + p + 1), n) : Nat × String) ≠
              (batchNumber (base + 1), basename hd) := by
            intro hcontra
            exact hbn (congrArg Prod.snd hcontra).symm
          rw [downloadPdf_disk_ne md5 net hd (base + 1) st _ hkey]
          exact hq
        · exact hstep1
        · intro m hm
          rcases downloadPdf_checksumFile_or md5 net hd (base + 1) st with hor | hor
          · exact hfile m (by rw [hor] at hm; exact hm)
          · rw [hor] at hm
            obtain rfl := Option.some_injective _ hm
            exact hstep1

/-- Every record in `indexData` after a group run was already there or was
produced by a successful download of one of the processed urls. -/
theorem runGroup_indexData_source (md5 : Content → Digest) (net : String → FetchResult)
    (base : Nat) (urls : List String) (st : St) (rec : IndexEntry)
    (h : rec ∈ (runGroup md5 net base urls st).indexData) :
    rec ∈ st.indexData ∨ ∃ url, url ∈ urls ∧ ∃ c, net url = FetchResult.ok c ∧
      rec = ⟨basename url, url, c.length, md5 c⟩ := by
  induction urls generalizing base st with
  | nil => simp only [runGroup] at h; exact Or.inl h
  | cons hd tl ih =>
      simp only [runGroup] at h
      rcases ih _ _ h with h2 | h2
      · -- rec was present after the head step
        by_cases hex : (getKey (batchNumber (base + 1), basename hd) st.disk).isSome = true
        · rw [downloadPdf_skip md5 net hd (base + 1) st hex] at h2
          exact Or.inl h2
        · cases hnet : net hd with
          | ok c =>
              rw [downloadPdf_ok md5 net hd (base + 1) st c (by simpa using hex) hnet] at h2
              simp only [List.mem_append, List.mem_singleton] at h2
              rcases h2 with h3 | h3
              · exact Or.inl h3
              · exact Or.inr ⟨hd, by simp, c, hnet, h3⟩
          | errBeforeWrite =>
              rw [downloadPdf_errBeforeWrite md5 net hd (base + 1) st
                (by simpa using hex) hnet] at h2
              exact Or.inl h2
          | errDuringWrite w =>
              rw [downloadPdf_errDuringWrite md5 net hd (base + 1) st w
                (by simpa using hex) hnet] at h2
              exact Or.inl h2
          | errHash c =>
              rw [downloadPdf_errHash md5 net hd (base + 1) st c
                (by simpa using hex) hnet] at h2
              exact Or.inl h2
      · obtain ⟨url, hu, hc⟩ := h2
        exact Or.inr ⟨url, by simp [hu], hc⟩

/-- When the urls have pairwise distinct base names, a resource whose slot
is initially empty and whose fetch succeeds ends the group run recorded: its
digest is in the in-memory map, in every later durable snapshot (in
particular the final one, which exists), and its record is in `indexData` —
regardless of what happens to every other resource. -/
theorem runGroup_success_recorded (md5 : Content → Digest) (net : String → FetchResult)
    (base : Nat) (urls : List String) (st : St) (p : Nat) (c : Content)
    (hdist : (urls.map basename).Pairwise (fun a b => a ≠ b))
    (hp : p < urls.length)
    (habs : getKey (batchNumber (base + p + 1), basename (urls.getD p "")) st.disk = none)
    (hnet : net (urls.getD p "") = FetchResult.ok c) :
    getKey (basename (urls.getD p "")) (runGroup md5 net base urls st).checksums
        = some (md5 c)
    ∧ (∀ m, (runGroup md5 net base urls st).checksumFile = some m →
        getKey (basename (urls.getD p "")) m = some (md5 c))
    ∧ (⟨basename (urls.getD p ""), urls.getD p "", c.length, md5 c⟩ : IndexEntry)
        ∈ (runGroup md5 net base urls st).indexData
    ∧ (runGroup md5 net base urls st).checksumFile.isSome := by
  induction urls generalizing base st p with
  | nil => exact absurd hp (by simp)
  | cons hd tl ih =>
      rw [List.map_cons, List.pairwise_cons] at hdist
      obtain ⟨hhd, htl⟩ := hdist
      cases p with
      | zero =>
          simp only [List.getD_cons_zero, Nat.add_zero] at habs hnet ⊢
          simp only [runGroup]
          rw [downloadPdf_ok md5 net hd (base + 1) st c (by simp [habs]) hnet]
          have hn : ∀ url, url ∈ tl → basename url ≠ basename hd := by
            intro url hu
            exact fun hc => (hhd (basename url) (List.mem_map_of_mem basename hu)) hc.symm
          have hkeep := runGroup_keep_entry md5 net (base + 1) tl
            { st with
                dirs := ensureDir st.dirs (batchNumber (base + 1)),
                disk := setKey st.disk (batchNumber (base + 1), basename hd) c,
                checksums := setKey st.checksums (basename hd) (md5 c),
                indexData := st.indexData ++ [⟨basename hd, hd, c.length, md5 c⟩],
                checksumFile := some (setKey st.checksums (basename hd) (md5 c)),
                events := st.events ++
                  [.fetch hd, .hashFile (batchNumber (base + 1)) (basename hd),
                   .writeChecksumFile] }
            (basename hd) (md5 c) ⟨basename hd, hd, c.length, md5 c⟩ hn
            (by simpa using getKey_setKey_self st.checksums (basename hd) (md5 c))
            (by
              intro m hm
              obtain rfl := Option.some_injective _ hm
              exact getKey_setKey_self st.checksums (basename hd) (md5 c))
            (by simp)
            (by simp)
          exact hkeep
      | succ p2 =>
          simp only [List.getD_cons_succ] at habs hnet ⊢
          simp only [runGroup]
          have harith : base + (p2 + 1) + 1 = base + 1 + p2 + 1 := by omega
          rw [harith] at habs
          have hmemtl : tl.getD p2 "" ∈ tl := by
            have hlen : p2 < tl.length := by simpa using Nat.lt_of_succ_lt_succ hp
            rw [List.getD_eq_getElem tl "" hlen]
            exact List.getElem_mem hlen
          have hkey : ((batchNumber (base + 1 + p2 + 1), basename (tl.getD p2 "")) :
              Nat × String) ≠ (batchNumber (base + 1), basename hd) := by
            intro hcontra
            have hbn : basename (tl.getD p2 "") = basename hd :=
              congrArg Prod.snd hcontra
            exact (hhd (basename (tl.getD p2 ""))
              (List.mem_map_of_mem basename hmemtl)) hbn.symm
          apply ih
          · exact htl
          · simpa using Nat.lt_of_succ_lt_succ hp
          · rw [downloadPdf_disk_ne md5 net hd (base + 1) st _ hkey]
            exact habs
          · exact hnet

/-! ### Claim C3 -/

/-- C3: a resource whose file already exists at its assigned
`Partition/ResourceName` slot is skipped outright — the step only ensures
the partition directory and leaves disk, checksum map, durable files,
manifest records and the event trace (hence: no fetch, no hashing)
untouched; consequently a name whose file is on disk at its assigned slot
for every position at which it occurs, and which has no recorded checksum,
still has no checksum in the durable store after any further run. -/
theorem c3_skip_existing (md5 : Content → Digest) (net : String → FetchResult) :
    (∀ url idx st, (getKey (batchNumber idx, basename url) st.disk).isSome = true →
      downloadPdf md5 net url idx st =
        { st with dirs := ensureDir st.dirs (batchNumber idx) })
    ∧ (∀ urls st n,
        (∀ p, p < urls.length → basename (urls.getD p "") = n →
          (getKey (batchNumber (p + 1), n) st.disk).isSome) →
        (∀ m, st.checksumFile = some m → getKey n m = none) →
        ∀ m, (downloadAllPdfs md5 net urls st).checksumFile = some m →
          getKey n m = none) := by
  refine ⟨fun url idx st hex => downloadPdf_skip md5 net url idx st hex, ?_⟩
  intro urls st n hpos hfile m hm
  rw [downloadAllPdfs_eq] at hm
  have hm2 : (runGroup md5 net 0 urls (loadRun st)).checksumFile = some m := by
    simpa [finishRun] using hm
  have hload_mem : getKey n (loadRun st).checksums = none := by
    rcases hcf : st.checksumFile with _ | m0
    · simp [loadRun, hcf, getKey]
    · simp only [loadRun, hcf]
      exact hfile m0 hcf
  have hload_file : ∀ m0, (loadRun st).checksumFile = some m0 → getKey n m0 = none := by
    intro m0 hm0
    exact hfile m0 (by simpa [loadRun] using hm0)
  have hpos0 : ∀ p, p < urls.length → basename (urls.getD p "") = n →
      (getKey (batchNumber (0 + p + 1), n) (loadRun st).disk).isSome := by
    intro p hp hb
    have hq := hpos p hp hb
    simpa [loadRun] using hq
  exact (runGroup_no_checksum md5 net 0 urls (loadRun st) n
    hpos0 hload_mem hload_file).2 m hm2

/-- Witness for `c3_skip_existing`: `a.pdf` is on disk with no recorded
checksum (store present but empty); the step is a pure skip and a run over
its url leaves it unchecksummed in the durable store. -/
theorem c3_skip_existing_witness :
    downloadPdf md5c netOk "https://x/a.pdf" 1 stOrphan =
      { stOrphan with dirs := ensureDir stOrphan.dirs (batchNumber 1) }
    ∧ (∀ m, (downloadAllPdfs md5c netOk ["https://x/a.pdf"] stOrphan).checksumFile =
          some m → getKey "a.pdf" m = none) :=
  ⟨(c3_skip_existing md5c netOk).1 "https://x/a.pdf" 1 stOrphan (by decide),
   (c3_skip_existing md5c netOk).2 ["https://x/a.pdf"] stOrphan "a.pdf"
     (by
       intro p hp hb
       have hp1 : p < 1 := by simpa using hp
       have hp0 : p = 0 := by omega
       subst hp0
       decide)
     (by
       intro m hm
       simp only [stOrphan, st0, Option.some.injEq] at hm
       subst hm
       rfl)⟩

/-! ### Claim C4 -/

/-- C4: failures are isolated per resource.  (a) A step whose fetch, write
or hash fails — whatever the failure point — adds no checksum entry, writes
no durable checksum file and adds no manifest record.  (b) A name all of
whose urls fail appears in neither the final durable store nor the final
manifest (assuming it was not already recorded).  (c) A resource with an
empty slot whose fetch succeeds ends the run present in the final durable
store and manifest, regardless of every other resource's outcome (base
names pairwise distinct). -/
theorem c4_failure_isolation (md5 : Content → Digest) (net : String → FetchResult) :
    (∀ url idx st, (∀ c, net url ≠ FetchResult.ok c) →
      (downloadPdf md5 net url idx st).checksums = st.checksums
      ∧ (downloadPdf md5 net url idx st).checksumFile = st.checksumFile
      ∧ (downloadPdf md5 net url idx st).indexData = st.indexData
      ∧ (downloadPdf md5 net url idx st).indexFile = st.indexFile)
    ∧ (∀ urls st n,
        (∀ url, url ∈ urls → basename url = n → ∀ c, net url ≠ FetchResult.ok c) →
        (∀ m, st.checksumFile = some m → getKey n m = none) →
        (∀ m, (downloadAllPdfs md5 net urls st).checksumFile = some m →
          getKey n m = none)
        ∧ (∀ l rec, (downloadAllPdfs md5 net urls st).indexFile = some l →
            rec ∈ l → rec.fileName ≠ n))
    ∧ (∀ urls st p c, (urls.map basename).Pairwise (fun a b => a ≠ b) →
        p < urls.length →
        getKey (batchNumber (p + 1), basename (urls.getD p "")) st.disk = none →
        net (urls.getD p "") = FetchResult.ok c →
        (∃ m, (downloadAllPdfs md5 net urls st).checksumFile = some m
          ∧ getKey (basename (urls.getD p "")) m = some (md5 c))
        ∧ (∃ l, (downloadAllPdfs md5 net urls st).indexFile = some l
          ∧ (⟨basename (urls.getD p ""), urls.getD p "", c.length, md5 c⟩ :
              IndexEntry) ∈ l)) := by
  refine ⟨?_, ?_, ?_⟩
  · intro url idx st hfail
    cases hnet : net url with
    | ok c => exact absurd hnet (hfail c)
    | errBeforeWrite =>
        by_cases hex : (getKey (batchNumber idx, basename url) st.disk).isSome = true
        · rw [downloadPdf_skip md5 net url idx st hex]; exact ⟨rfl, rfl, rfl, rfl⟩
        · rw [downloadPdf_errBeforeWrite md5 net url idx st (by simpa using hex) hnet]
          exact ⟨rfl, rfl, rfl, rfl⟩
    | errDuringWrite w =>
        by_cases hex : (getKey (batchNumber idx, basename url) st.disk).isSome = true
        · rw [downloadPdf_skip md5 net url idx st hex]; exact ⟨rfl, rfl, rfl, rfl⟩
        · rw [downloadPdf_errDuringWrite md5 net url idx st w (by simpa using hex) hnet]
          exact ⟨rfl, rfl, rfl, rfl⟩
    | errHash c =>
        by_cases hex : (getKey (batchNumber idx, basename url) st.disk).isSome = true
        · rw [downloadPdf_skip md5 net url idx st hex]; exact ⟨rfl, rfl, rfl, rfl⟩
        · rw [downloadPdf_errHash md5 net url idx st c (by simpa using hex) hnet]
          exact ⟨rfl, rfl, rfl, rfl⟩
  · intro urls st n hfail hfile
    constructor
    · intro m hm
      rw [downloadAllPdfs_eq] at hm
      have hm2 : (runGroup md5 net 0 urls (loadRun st)).checksumFile = some m := by
        simpa [finishRun] using hm
      have hload_mem : getKey n (loadRun st).checksums = none := by
        rcases hcf : st.checksumFile with _ | m0
        · simp [loadRun, hcf, getKey]
        · simp only [loadRun, hcf]
          exact hfile m0 hcf
      have hload_file : ∀ m0, (loadRun st).checksumFile = some m0 →
          getKey n m0 = none := by
        intro m0 hm0
        exact hfile m0 (by simpa [loadRun] using hm0)
      exact (runGroup_no_entry md5 net 0 urls (loadRun st) n
        hfail hload_mem hload_file).2 m hm2
    · intro l rec hl hrec hname
      rw [downloadAllPdfs_eq] at hl
      have hl2 : l = (runGroup md5 net 0 urls (loadRun st)).indexData := by
        have := hl
        simp only [finishRun] at this
        exact (Option.some_injective _ this).symm
      subst hl2
      rcases runGroup_indexData_source md5 net 0 urls (loadRun st) rec hrec with h | h
      · simp [loadRun] at h
      · obtain ⟨url, hu, c, hnet2, hrec2⟩ := h
        have hbn : basename url = n := by rw [hrec2] at hname; exact hname
        exact hfail url hu hbn c hnet2
  · intro urls st p c hdist hp habs hnet
    have habs0 : getKey (batchNumber (0 + p + 1), basename (urls.getD p ""))
        (loadRun st).disk = none := by
      simpa [loadRun] using habs
    obtain ⟨h1, h2, h3, h4⟩ :=
      runGroup_success_recorded md5 net 0 urls (loadRun st) p c hdist hp habs0 hnet
    rw [downloadAllPdfs_eq]
    constructor
    · rcases hsome : (runGroup md5 net 0 urls (loadRun st)).checksumFile with _ | m
      · rw [hsome] at h4; simp at h4
      · exact ⟨m, by simp [finishRun, hsome], h2 m hsome⟩
    · exact ⟨(runGroup md5 net 0 urls (loadRun st)).indexData, by simp [finishRun], h3⟩

/-- Witness for `c4_failure_isolation`: `b.pdf` fails while `a.pdf`
succeeds; `b.pdf` ends up in neither durable store nor manifest, `a.pdf`
ends up in both. -/
theorem c4_failure_isolation_witness :
    ((∀ m, (downloadAllPdfs md5c netMixed
          ["https://x/a.pdf", "https://x/b.pdf"] st0).checksumFile = some m →
        getKey "b.pdf" m = none)
      ∧ (∀ l rec, (downloadAllPdfs md5c netMixed
            ["https://x/a.pdf", "https://x/b.pdf"] st0).indexFile = some l →
          rec ∈ l → rec.fileName ≠ "b.pdf"))
    ∧ ((∃ m, (downloadAllPdfs md5c netMixed
          ["https://x/a.pdf", "https://x/b.pdf"] st0).checksumFile = some m
        ∧ getKey (basename (["https://x/a.pdf", "https://x/b.pdf"].getD 0 "")) m =
            some (md5c [7]))
      ∧ (∃ l, (downloadAllPdfs md5c netMixed
            ["https://x/a.pdf", "https://x/b.pdf"] st0).indexFile = some l
        ∧ (⟨basename (["https://x/a.pdf", "https://x/b.pdf"].getD 0 ""),
            ["https://x/a.pdf", "https://x/b.pdf"].getD 0 "",
            ([7] : Content).length, md5c [7]⟩ : IndexEntry) ∈ l)) :=
  ⟨(c4_failure_isolation md5c netMixed).2.1
      ["https://x/a.pdf", "https://x/b.pdf"] st0 "b.pdf"
      (by
        intro url hu hb cc
        rcases List.mem_cons.mp hu with rfl | hu2
        · exact absurd hb (by decide)
        · rcases List.mem_singleton.mp hu2 with rfl
          simp [netMixed])
      (by intro m hm; simp [st0] at hm),
   (c4_failure_isolation md5c netMixed).2.2
      ["https://x/a.pdf", "https://x/b.pdf"] st0 0 [7]
      (by decide) (by decide) (by decide) (by decide)⟩

/-! ### Claim C5 -/

/-- C5: the manifest is per-run, not cumulative.  (1) The final
`index.json` holds exactly the run's in-memory record sequence.  (2) The
run performs exactly one manifest write, and it is the last event of the
run (after all groups).  (3) Every flushed record comes from a url of this
run whose fetch succeeded — skipped and failed resources produce no record.
(4) The prior manifest content has no influence on the flushed manifest
(pure overwrite).  (5) If every resource's file already exists the flushed
manifest is the empty record list, whatever the prior manifest held. -/
theorem c5_manifest_not_cumulative (md5 : Content → Digest)
    (net : String → FetchResult) (urls : List String) (st : St) :
    (downloadAllPdfs md5 net urls st).indexFile =
        some (downloadAllPdfs md5 net urls st).indexData
    ∧ List.count Event.writeIndex (downloadAllPdfs md5 net urls st).events =
        List.count Event.writeIndex st.events + 1
    ∧ (downloadAllPdfs md5 net urls st).events.getLast? = some Event.writeIndex
    ∧ (∀ rec, rec ∈ (downloadAllPdfs md5 net urls st).indexData →
        ∃ url, url ∈ urls ∧ ∃ c, net url = FetchResult.ok c ∧
          rec = ⟨basename url, url, c.length, md5 c⟩)
    ∧ (∀ j, (downloadAllPdfs md5 net urls { st with indexFile := j }).indexFile =
        (downloadAllPdfs md5 net urls st).indexFile)
    ∧ ((∀ p, p < urls.length →
          (getKey (batchNumber (p + 1), basename (urls.getD p "")) st.disk).isSome) →
        (downloadAllPdfs md5 net urls st).indexFile = some []) := by
  refine ⟨?_, ?_, ?_, ?_, ?_, ?_⟩
  · rw [downloadAllPdfs_eq]; simp [finishRun]
  · rw [downloadAllPdfs_eq]
    simp only [finishRun, List.count_append]
    rw [runGroup_writeIndex_count]
    simp [loadRun]
  · rw [downloadAllPdfs_eq]
    simp [finishRun, List.getLast?_concat]
  · intro rec hrec
    rw [downloadAllPdfs_eq] at hrec
    simp only [finishRun] at hrec
    rcases runGroup_indexData_source md5 net 0 urls (loadRun st) rec hrec with h | h
    · simp [loadRun] at h
    · obtain ⟨url, hu, hc⟩ := h
      exact ⟨url, hu, hc⟩
  · intro j
    rw [downloadAllPdfs_eq, downloadAllPdfs_eq]
    have hload : loadRun { st with indexFile := j } =
        { loadRun st with indexFile := j } := by
      rcases hcf : st.checksumFile with _ | m <;> simp [loadRun, hcf]
    rw [hload, runGroup_indexFile_ignored]
    simp [finishRun]
  · intro hpos
    rw [downloadAllPdfs_eq]
    have hpos0 : ∀ p, p < urls.length →
        (getKey (batchNumber (0 + p + 1), basename (urls.getD p ""))
          (loadRun st).disk).isSome := by
      intro p hp
      have hq := hpos p hp
      simpa [loadRun] using hq
    obtain ⟨hdisk, hcks, hcf, hidx, hev⟩ :=
      runGroup_all_skip md5 net 0 urls (loadRun st) hpos0
    simp only [finishRun, Option.some.injEq]
    rw [hidx]
    simp [loadRun]

/-- Witness for `c5_manifest_not_cumulative`: re-running over an already
materialized resource flushes an empty manifest over the prior one-record
manifest. -/
theorem c5_manifest_not_cumulative_witness :
    (downloadAllPdfs md5c netOk ["https://x/a.pdf"] stPrior).indexFile =
      some (downloadAllPdfs md5c netOk ["https://x/a.pdf"] stPrior).indexData
    ∧ (downloadAllPdfs md5c netOk ["https://x/a.pdf"] stPrior).indexFile = some [] :=
  ⟨(c5_manifest_not_cumulative md5c netOk ["https://x/a.pdf"] stPrior).1,
   (c5_manifest_not_cumulative md5c netOk ["https://x/a.pdf"] stPrior).2.2.2.2.2
     (by
       intro p hp
       have hp1 : p < 1 := by simpa using hp
       have hp0 : p = 0 := by omega
       subst hp0
       decide)⟩

/-! ### Claim C7 -/

theorem findInBatches_none_iff (disk : List ((Nat × String) × Content))
    (dirs : List Nat) (n : String) :
    findInBatches disk dirs n = none ↔ ∀ b, b ∈ dirs → getKey (b, n) disk = none := by
  induction dirs with
  | nil => simp [findInBatches]
  | cons b0 rest ih =>
      cases hb : getKey (b0, n) disk with
      | some c =>
          simp only [findInBatches, hb]
          constructor
          · intro h; simp at h
          · intro h
            have h2 := h b0 (by simp)
            simp [h2] at hb
      | none => simp [findInBatches, hb, ih]

/-- A hit of the batch-directory search is a genuine first hit: the
directories scanned before it do not contain the file, the hit directory
does, with exactly the returned bytes. -/
theorem findInBatches_some (disk : List ((Nat × String) × Content))
    (dirs : List Nat) (n : String) (b : Nat) (c : Content)
    (h : findInBatches disk dirs n = some (b, c)) :
    ∃ pre post, dirs = pre ++ b :: post ∧ getKey (b, n) disk = some c
      ∧ ∀ b2, b2 ∈ pre → getKey (b2, n) disk = none := by
  induction dirs with
  | nil => simp [findInBatches] at h
  | cons b0 rest ih =>
      cases hb : getKey (b0, n) disk with
      | some c0 =>
          simp only [findInBatches, hb, Option.some.injEq, Prod.mk.injEq] at h
          obtain ⟨rfl, rfl⟩ := h
          exact ⟨[], rest, rfl, hb, by simp⟩
      | none =>
          simp only [findInBatches, hb] at h
          obtain ⟨pre, post, hd, hg, hpre⟩ := ih h
          refine ⟨b0 :: pre, post, by rw [hd]; rfl, hg, ?_⟩
          intro b2 hb2
          rcases List.mem_cons.mp hb2 with rfl | hb3
          · exact hb
          · exact hpre b2 hb3

/-- The per-entry report of `verifyChecksums` is the entry list mapped
through `entryStatus`. -/
theorem verifyEntries_statuses (md5 : Content → Digest) (st : St)
    (entries : List (String × Digest)) :
    (verifyEntries md5 st entries).1 =
      entries.map (fun e => (e.1, entryStatus md5 st e.1 e.2)) := by
  induction entries with
  | nil => rfl
  | cons e rest ih =>
      obtain ⟨n, d⟩ := e
      simp [verifyEntries, ih]

/-- Every entry whose verdict is not OK lands in `corruptedFiles`. -/
theorem verifyEntries_cor_mem (md5 : Content → Digest) (st : St)
    (entries : List (String × Digest)) (n : String) (d : Digest)
    (hmem : (n, d) ∈ entries) (hst : entryStatus md5 st n d ≠ FileStatus.ok) :
    n ∈ (verifyEntries md5 st entries).2.1 := by
  induction entries with
  | nil => simp at hmem
  | cons e rest ih =>
      obtain ⟨n0, d0⟩ := e
      rcases List.mem_cons.mp hmem with heq | hmem2
      · rw [Prod.mk.injEq] at heq
        obtain ⟨rfl, rfl⟩ := heq
        simp [verifyEntries, hst]
      · by_cases hok : entryStatus md5 st n0 d0 = FileStatus.ok <;>
          simp [verifyEntries, hok, ih hmem2]

/-- C7: verification iterates the checksum entries; for each it searches
the existing batch directories in order for the literally named file,
stopping at the first hit; an entry is reported missing exactly when no
batch directory holds its file; a found entry is re-hashed and is reported
corrupted when the recomputed digest differs from the stored one — it is
never reported OK unless the recomputed digest of the first hit equals the
stored digest. -/
theorem c7_verify_search_and_classify (md5 : Content → Digest) (st : St)
    (entries : List (String × Digest)) (h : st.checksumFile = some entries) :
    ∃ sts cor evs, verifyChecksums md5 st = (VerifyResult.report sts cor, evs)
    ∧ sts = entries.map (fun e => (e.1, entryStatus md5 st e.1 e.2))
    ∧ (∀ n d, (n, d) ∈ entries →
        (entryStatus md5 st n d = FileStatus.missing ↔
          ∀ b, b ∈ st.dirs → getKey (b, n) st.disk = none))
    ∧ (∀ n d b c, (n, d) ∈ entries →
        findInBatches st.disk st.dirs n = some (b, c) →
        (∃ pre post, st.dirs = pre ++ b :: post ∧ getKey (b, n) st.disk = some c
          ∧ ∀ b2, b2 ∈ pre → getKey (b2, n) st.disk = none)
        ∧ entryStatus md5 st n d =
            (if md5 c = d then FileStatus.ok else FileStatus.corrupted)
        ∧ (md5 c ≠ d → (n, FileStatus.corrupted) ∈ sts ∧ n ∈ cor))
    ∧ (∀ n, (n, FileStatus.ok) ∈ sts →
        ∃ d b c, (n, d) ∈ entries ∧ findInBatches st.disk st.dirs n = some (b, c)
          ∧ md5 c = d) := by
  refine ⟨(verifyEntries md5 st entries).1, (verifyEntries md5 st entries).2.1,
    (verifyEntries md5 st entries).2.2, ?_, verifyEntries_statuses md5 st entries,
    ?_, ?_, ?_⟩
  · simp [verifyChecksums, h]
  · intro n d hmem
    constructor
    · intro hstatus
      rw [← findInBatches_none_iff]
      rcases hf : findInBatches st.disk st.dirs n with _ | bc
      · rfl
      · obtain ⟨b, c⟩ := bc
        by_cases hmd : md5 c = d <;> simp [entryStatus, hf, hmd] at hstatus
    · intro hall
      simp [entryStatus, (findInBatches_none_iff st.disk st.dirs n).mpr hall]
  · intro n d b c hmem hfind
    refine ⟨findInBatches_some st.disk st.dirs n b c hfind, ?_, ?_⟩
    · simp [entryStatus, hfind]
    · intro hne
      have hstat : entryStatus md5 st n d = FileStatus.corrupted := by
        simp [entryStatus, hfind, hne]
      constructor
      · rw [verifyEntries_statuses]
        simpa [hstat] using
          List.mem_map_of_mem (fun e => (e.1, entryStatus md5 st e.1 e.2)) hmem
      · exact verifyEntries_cor_mem md5 st entries n d hmem (by simp [hstat])
  · intro n hok
    rw [verifyEntries_statuses] at hok
    obtain ⟨e, hmem, heq⟩ := List.mem_map.mp hok
    obtain ⟨n0, d⟩ := e
    rw [Prod.mk.injEq] at heq
    obtain ⟨rfl, hstat⟩ := heq
    rcases hf : findInBatches st.disk st.dirs n0 with _ | bc
    · simp [entryStatus, hf] at hstat
    · obtain ⟨b, c⟩ := bc
      refine ⟨d, b, c, hmem, rfl, ?_⟩
      by_cases hmd : md5 c = d
      · exact hmd
      · simp [entryStatus, hf, hmd] at hstat

/-- Witness for `c7_verify_search_and_classify`: on-disk bytes of `a.pdf`
were mutated after its checksum was recorded; verification reports it
corrupted, not OK. -/
theorem c7_verify_search_and_classify_witness :
    ∃ sts cor evs,
      verifyChecksums md5c stCorrupt = (VerifyResult.report sts cor, evs)
      ∧ ("a.pdf", FileStatus.corrupted) ∈ sts ∧ "a.pdf" ∈ cor := by
  obtain ⟨sts, cor, evs, heq, hmap, hmiss, hfound, hok⟩ :=
    c7_verify_search_and_classify md5c stCorrupt [("a.pdf", md5c [1, 2, 3])] rfl
  refine ⟨sts, cor, evs, heq, ?_⟩
  exact (hfound "a.pdf" (md5c [1, 2, 3]) 1 [9, 9] (by decide) (by decide)).2.2 (by decide)

/-! ### Claim C10 -/

theorem ensureDir_idem (dirs : List Nat) (b : Nat) :
    ensureDir (ensureDir dirs b) b = ensureDir dirs b := by
  have hmem := ensureDir_mem_self dirs b
  rw [ensureDir, if_pos hmem]

/-- When exactly one batch directory holds the file, the search finds it
there with its stored bytes. -/
theorem findInBatches_found_unique (disk2 : List ((Nat × String) × Content))
    (dirs : List Nat) (n : String) (bb : Nat) (w : Content)
    (hbb : bb ∈ dirs)
    (hval : ∀ b3, b3 ∈ dirs →
      if b3 = bb then getKey (b3, n) disk2 = some w
      else getKey (b3, n) disk2 = none) :
    findInBatches disk2 dirs n = some (bb, w) := by
  induction dirs with
  | nil => simp at hbb
  | cons b0 rest ih =>
      by_cases hb0 : b0 = bb
      · subst hb0
        have h0 := hval b0 (by simp)
        rw [if_pos rfl] at h0
        simp [findInBatches, h0]
      · have h0 := hval b0 (by simp)
        rw [if_neg hb0] at h0
        have hbbrest : bb ∈ rest := by
          rcases List.mem_cons.mp hbb with h2 | h2
          · exact absurd h2.symm hb0
          · exact h2
        simp only [findInBatches, h0]
        exact ih hbbrest (fun b3 hb3 => hval b3 (by simp [hb3]))

/-- C10: a failure after the write stream was created leaves the partially
written bytes at the final path `Partition/ResourceName`; no checksum entry,
durable write or manifest record is produced for it; every later attempt at
the same resource — under any digest function and any network behaviour —
is a pure skip (the state is a fixpoint of `downloadPdf`); and when no
other batch directory holds the name, verification's search finds the
partial file and classifies its entry by hashing the partial bytes as if
they were the real file. -/
theorem c10_partial_file_trap (md5 md5b : Content → Digest)
    (net netb : String → FetchResult)
    (url : String) (idx : Nat) (st : St) (w : Content) (d : Digest)
    (hex : getKey (batchNumber idx, basename url) st.disk = none)
    (hnet : net url = FetchResult.errDuringWrite w) :
    getKey (batchNumber idx, basename url) (downloadPdf md5 net url idx st).disk
        = some w
    ∧ (downloadPdf md5 net url idx st).checksums = st.checksums
    ∧ (downloadPdf md5 net url idx st).checksumFile = st.checksumFile
    ∧ (downloadPdf md5 net url idx st).indexData = st.indexData
    ∧ downloadPdf md5b netb url idx (downloadPdf md5 net url idx st) =
        downloadPdf md5 net url idx st
    ∧ ((∀ b3, b3 ∈ st.dirs → getKey (b3, basename url) st.disk = none) →
        findInBatches (downloadPdf md5 net url idx st).disk
            (downloadPdf md5 net url idx st).dirs (basename url) =
          some (batchNumber idx, w)
        ∧ entryStatus md5b (downloadPdf md5 net url idx st) (basename url) d =
            (if md5b w = d then FileStatus.ok else FileStatus.corrupted)) := by
  have hexb : (getKey (batchNumber idx, basename url) st.disk).isSome = false := by
    simp [hex]
  rw [downloadPdf_errDuringWrite md5 net url idx st w hexb hnet]
  refine ⟨by simp [getKey_setKey_self], by simp, by simp, by simp, ?_, ?_⟩
  · have hex2 : (getKey (batchNumber idx, basename url)
        (setKey st.disk (batchNumber idx, basename url) w)).isSome = true := by
      simp [getKey_setKey_self]
    rw [downloadPdf_skip md5b netb url idx _ (by simpa using hex2)]
    simp [ensureDir_idem]
  · intro hdirs
    have hfind : findInBatches (setKey st.disk (batchNumber idx, basename url) w)
        (ensureDir st.dirs (batchNumber idx)) (basename url) =
          some (batchNumber idx, w) := by
      apply findInBatches_found_unique
      · exact ensureDir_mem_self st.dirs (batchNumber idx)
      · intro b3 hb3
        by_cases hbb : b3 = batchNumber idx
        · subst hbb
          rw [if_pos rfl]
          exact getKey_setKey_self st.disk (batchNumber idx, basename url) w
        · rw [if_neg hbb]
          have hb3mem : b3 ∈ st.dirs := by
            rcases ensureDir_subset st.dirs (batchNumber idx) b3 hb3 with h | h
            · exact h
            · exact absurd h hbb
          rw [getKey_setKey_ne st.disk (batchNumber idx, basename url)
            (b3, basename url) w (by intro hc; exact hbb (congrArg Prod.fst hc))]
          exact hdirs b3 hb3mem
    exact ⟨by simpa using hfind, by simp [entryStatus, hfind]⟩

/-- Witness for `c10_partial_file_trap`: the write of `a.pdf` dies after
one byte; the next run skips the partial file and verification hashes the
single byte. -/
theorem c10_partial_file_trap_witness :
    getKey (batchNumber 1, basename "https://x/a.pdf")
        (downloadPdf md5c netMid "https://x/a.pdf" 1 st0).disk = some [9]
    ∧ downloadPdf md5c netOk "https://x/a.pdf" 1
          (downloadPdf md5c netMid "https://x/a.pdf" 1 st0) =
        downloadPdf md5c netMid "https://x/a.pdf" 1 st0
    ∧ (findInBatches (downloadPdf md5c netMid "https://x/a.pdf" 1 st0).disk
            (downloadPdf md5c netMid "https://x/a.pdf" 1 st0).dirs
            (basename "https://x/a.pdf") = some (batchNumber 1, [9])
        ∧ entryStatus md5c (downloadPdf md5c netMid "https://x/a.pdf" 1 st0)
              (basename "https://x/a.pdf") (md5c [1, 2, 3]) =
            (if md5c [9] = md5c [1, 2, 3] then FileStatus.ok
             else FileStatus.corrupted)) :=
  have h := c10_partial_file_trap md5c md5c netMid netOk "https://x/a.pdf" 1 st0
    [9] (md5c [1, 2, 3]) (by decide) (by decide)
  ⟨h.1, h.2.2.2.2.1, h.2.2.2.2.2 (by intro b3 hb3; simp [st0] at hb3)⟩

end JfkScraper
